import Mathlib

/-!
Shallow embedding of the SchemaRAG dify plugin's cache and conversation-context
subsystem (`service/cache/memory.py`, `service/cache/base.py`,
`service/cache/utils.py`, `service/context/models.py`,
`service/context/context_manager.py`, `service/context/storage.py`),
together with theorems settling the specification claims about it.

Machine conventions: Python `time.time()` instants and TTL durations are
modelled as natural-number seconds; Python `int` parameters that the code
compares against 0 are modelled as `Int`; a Python function that can raise is
modelled with `Except`/`Option`; Python dict/`OrderedDict` contents are
modelled as association lists in insertion/recency order (Python 3.7+ dicts
are ordered, and `next(iter(d))` is the first element of that order).
-/

/-! ### Python string primitives used by `service/cache/utils.py` -/

/-- The whitespace class of the Python regex `\s` (ASCII part), by code point:
space, tab, newline, carriage return, vertical tab, form feed. -/
def pyIsSpace (c : Char) : Bool :=
  c.toNat = 32 || c.toNat = 9 || c.toNat = 10 || c.toNat = 13 || c.toNat = 11 || c.toNat = 12

/-- Worker for `re.sub(r"\s+", " ", s)`: the flag records whether the previous
character was whitespace, so each maximal whitespace run becomes one space. -/
def collapseAux : Bool → List Char → List Char
  | _, [] => []
  | prev, c :: rest =>
    if pyIsSpace c then
      if prev then collapseAux true rest else ' ' :: collapseAux true rest
    else c :: collapseAux false rest

/-- `re.sub(r"\s+", " ", s)`: every maximal run of whitespace becomes a single
space character. -/
def pyCollapse (l : List Char) : List Char := collapseAux false l

/-- Python `str.lower` on the characters occurring in this code base (ASCII
letters are shifted by 32 code points; all other characters, including the
Chinese stopwords, are unchanged). -/
def pyToLower (c : Char) : Char :=
  if 65 ≤ c.toNat ∧ c.toNat ≤ 90 then Char.ofNat (c.toNat + 32) else c

/-- Drop trailing whitespace (the right half of Python `str.strip`). -/
def stripRight (l : List Char) : List Char :=
  (List.dropWhile pyIsSpace l.reverse).reverse

/-- Python `str.strip()`: drop leading and trailing whitespace. -/
def pyStrip (l : List Char) : List Char :=
  stripRight (List.dropWhile pyIsSpace l)

/-- Worker for Python `s.replace(pat, "")`: one left-to-right pass removing
every non-overlapping occurrence of `pat`; the scan resumes after a removed
occurrence and never re-examines already-emitted characters.  The fuel is an
upper bound on the number of steps; `fuel = length of the list` suffices for a
non-empty pattern because every step consumes at least one character. -/
def removeAllAux : Nat → List Char → List Char → List Char
  | 0, _, l => l
  | _ + 1, _, [] => []
  | fuel + 1, pat, c :: rest =>
    if pat.isPrefixOf (c :: rest) then
      removeAllAux fuel pat (List.drop pat.length (c :: rest))
    else c :: removeAllAux fuel pat rest

/-- Python `s.replace(pat, "")` for the non-empty patterns used by
`normalize_query` (its stopwords are all non-empty). -/
def pyRemoveAll (pat : String) (s : List Char) : List Char :=
  if pat.data.isEmpty then s else removeAllAux s.length pat.data s

/-- The fixed stopword list of `normalize_query` in `service/cache/utils.py`. -/
def stopwords : List String :=
  ["请", "帮我", "查询", "获取", "告诉我", "我想", "能否", "可以", "如何", "怎么", "帮忙"]

/-- `normalize_query` from `service/cache/utils.py`: collapse whitespace,
lowercase, strip; then (by default) remove every stopword by blunt substring
replacement, and collapse/strip once more. The `not query` guard maps the
empty string to itself. -/
def normalize_query (query : String) (remove_stopwords : Bool := true) : String :=
  if query = "" then "" else
  let normalized := pyStrip ((pyCollapse query.data).map pyToLower)
  if remove_stopwords then
    let cleaned := stopwords.foldl (fun acc w => pyRemoveAll w acc) normalized
    String.mk (pyStrip (pyCollapse cleaned))
  else String.mk normalized

/-! ### Cache key derivation (`service/cache/utils.py`) -/

/-- Python's strict `<` on strings: code-point lexicographic order. -/
def listLtB : List Char → List Char → Bool
  | [], [] => false
  | [], _ :: _ => true
  | _ :: _, [] => false
  | a :: as, b :: bs =>
    if a.toNat < b.toNat then true
    else if b.toNat < a.toNat then false
    else listLtB as bs

/-- Python's `<=` on strings: code-point lexicographic order. -/
def listLeB : List Char → List Char → Bool
  | [], _ => true
  | _ :: _, [] => false
  | a :: as, b :: bs =>
    if a.toNat < b.toNat then true
    else if b.toNat < a.toNat then false
    else listLeB as bs

/-- The lexicographic order Python uses to `sorted` a list of 2-tuples:
first component, then second component. Parameters are modelled as string
key/printed-value pairs. -/
def pairLe (a b : String × String) : Prop :=
  listLtB a.1.data b.1.data = true ∨ (a.1 = b.1 ∧ listLeB a.2.data b.2.data = true)

instance : DecidableRel pairLe := fun a b =>
  inferInstanceAs (Decidable (listLtB a.1.data b.1.data = true ∨
    (a.1 = b.1 ∧ listLeB a.2.data b.2.data = true)))

/-- Python `sorted` on a list of 2-tuples (the exact sorting algorithm is
irrelevant to the claims; any stable comparison sort produces the same list,
which insertion sort realises). -/
def pySorted (l : List (String × String)) : List (String × String) :=
  List.insertionSort pairLe l

/-- Python `str` of one `(key, value)` tuple whose key is a string and whose
value is stored as its printed representation. -/
def pyStrPair (p : String × String) : String :=
  "(\x27" ++ p.1 ++ "\x27, " ++ p.2 ++ ")"

/-- Python `str` of a list of such tuples. -/
def pyStrPairList (l : List (String × String)) : String :=
  "[" ++ String.intercalate ", " (l.map pyStrPair) ++ "]"

/-- Python `str` of a tuple of positional arguments (already printed). -/
def pyStrTuple : List String → String
  | [] => "()"
  | [x] => "(" ++ x ++ ",)"
  | l => "(" ++ String.intercalate ", " l ++ ")"

/-- Modelled from the spec: `hashlib.md5(s.encode("utf-8")).hexdigest()`,
which is library code not present under `src/`. The spec requires only "a
stable deterministic digest"; it is modelled as the hexadecimal dump of the
code points of the input, which is deterministic and distinguishes the
concrete inputs appearing in the claims. -/
def md5_hexdigest (s : String) : String :=
  s.data.foldl (fun acc c => acc ++ String.mk (Nat.toDigits 16 c.toNat)) ""

/-- `create_cache_key_from_dict` from `service/cache/utils.py`: sort the dict
items by key, print them, digest, and attach the prefix. -/
def create_cache_key_from_dict (pre : String) (params : List (String × String)) : String :=
  pre ++ ":" ++ md5_hexdigest (pyStrPairList (pySorted params))

/-- `generate_hash_key` from `service/cache/utils.py`: print the positional
arguments in call order, print the keyword arguments sorted by key,
concatenate and digest. -/
def generate_hash_key (args : List String) (kwargs : List (String × String)) : String :=
  md5_hexdigest (pyStrTuple args ++ pyStrPairList (pySorted kwargs))

/-! ### Association-list helpers shared by the cache and context models -/

/-- `d[key]`-style lookup in an insertion-ordered association list
(first entry with the given key). -/
def findEntry {α γ : Type} [DecidableEq α] (key : α) : List (α × γ) → Option γ
  | [] => none
  | (k, v) :: rest => if k = key then some v else findEntry key rest

/-- `del d[key]`: remove the entry with the given key (keys are unique in a
Python dict, so removing the first occurrence models deletion). -/
def eraseKey {α γ : Type} [DecidableEq α] (key : α) (l : List (α × γ)) : List (α × γ) :=
  l.eraseP (fun p => decide (p.1 = key))

/-- `d[key] = v` on a Python dict: overwrite in place if the key exists
(keeping its position in insertion order), otherwise append at the end. -/
def setAssoc {α γ : Type} [DecidableEq α] (key : α) (v : γ) : List (α × γ) → List (α × γ)
  | [] => [(key, v)]
  | (k, w) :: rest => if k = key then (k, v) :: rest else (k, w) :: setAssoc key v rest

/-! ### `LRUCache` (`service/cache/memory.py`) -/

/-- `LRUCache`: an `OrderedDict` of `key -> (value, expire_time)` in recency
order (front = least recently used), plus the capacity. -/
structure LRUCache (α β : Type) where
  max_size : Nat
  cache : List (α × β × Option Nat)

/-- `LRUCache.__init__`: rejects a non-positive `max_size` by raising
`ValueError`, modelled as `Except.error`. -/
def lru_init (α β : Type) (max_size : Int) : Except String (LRUCache α β) :=
  if max_size ≤ 0 then Except.error "max_size必须大于0"
  else Except.ok { max_size := max_size.toNat, cache := [] }

/-- `LRUCache.get`: absent keys yield `None`; an entry whose expiry has passed
is deleted and yields `None`; otherwise the entry is moved to the
most-recently-used end (`move_to_end`) and its value returned. -/
def LRUCache.get {α β : Type} [DecidableEq α] (c : LRUCache α β) (key : α) (now : Nat) :
    Option β × LRUCache α β :=
  match findEntry key c.cache with
  | none => (none, c)
  | some (v, some t) =>
    if t ≤ now then (none, { c with cache := eraseKey key c.cache })
    else (some v, { c with cache := eraseKey key c.cache ++ [(key, v, some t)] })
  | some (v, none) =>
    (some v, { c with cache := eraseKey key c.cache ++ [(key, v, none)] })

/-- `LRUCache.set`: an existing key is overwritten in place and moved to the
most-recently-used end; otherwise, if the cache is full, the least recently
used entry (the first one) is deleted before appending the new entry.
`none` models the `StopIteration` crash of `next(iter(self.cache))` on an
empty full cache, which is unreachable for a cache built by `__init__`. -/
def LRUCache.set {α β : Type} [DecidableEq α] (c : LRUCache α β) (key : α) (value : β)
    (ttl : Option Nat) (now : Nat) : Option (LRUCache α β) :=
  let expire := ttl.map (fun t => now + t)
  if (findEntry key c.cache).isSome then
    some { c with cache := eraseKey key c.cache ++ [(key, value, expire)] }
  else if c.max_size ≤ c.cache.length then
    match c.cache with
    | [] => none
    | (k0, _) :: _ => some { c with cache := eraseKey k0 c.cache ++ [(key, value, expire)] }
  else
    some { c with cache := c.cache ++ [(key, value, expire)] }

/-- `LRUCache.delete`: remove the key if present, reporting success. -/
def LRUCache.delete {α β : Type} [DecidableEq α] (c : LRUCache α β) (key : α) :
    Bool × LRUCache α β :=
  if (findEntry key c.cache).isSome then
    (true, { c with cache := eraseKey key c.cache })
  else (false, c)

/-- `LRUCache.clear`: drop every entry. -/
def LRUCache.clear {α β : Type} (c : LRUCache α β) : LRUCache α β :=
  { c with cache := [] }

/-! ### `TTLCache` (`service/cache/memory.py`) -/

/-- `TTLCache`: a plain dict of `key -> (value, expire_time)` in insertion
order, a capacity, and the default TTL. -/
structure TTLCache (α β : Type) where
  max_size : Nat
  default_ttl : Nat
  cache : List (α × β × Nat)

/-- `TTLCache.__init__`: stores its parameters without any validation
(in contrast with `LRUCache.__init__` there is no `max_size` check). -/
def ttl_init (α β : Type) (max_size : Int) (default_ttl : Int) : Except String (TTLCache α β) :=
  Except.ok { max_size := max_size.toNat, default_ttl := default_ttl.toNat, cache := [] }

/-- `TTLCache.get`: absent keys yield `None`; an expired entry is deleted and
yields `None`; otherwise the value is returned (no recency update). -/
def TTLCache.get {α β : Type} [DecidableEq α] (c : TTLCache α β) (key : α) (now : Nat) :
    Option β × TTLCache α β :=
  match findEntry key c.cache with
  | none => (none, c)
  | some (v, expire) =>
    if expire ≤ now then (none, { c with cache := eraseKey key c.cache })
    else (some v, c)

/-- `TTLCache.set`: when the cache is full and the key is new, delete the
first expired entry, or the first entry if none is expired; then assign.
`none` models the `StopIteration` crash of `next(iter(self.cache))` on an
empty full cache (only reachable when `max_size = 0`). -/
def TTLCache.set {α β : Type} [DecidableEq α] (c : TTLCache α β) (key : α) (value : β)
    (ttl : Option Nat) (now : Nat) : Option (TTLCache α β) :=
  let t := ttl.getD c.default_ttl
  let expire := now + t
  if c.max_size ≤ c.cache.length ∧ (findEntry key c.cache).isNone then
    match c.cache.find? (fun p => decide (p.2.2 ≤ now)) with
    | some p => some { c with cache := setAssoc key (value, expire) (eraseKey p.1 c.cache) }
    | none =>
      match c.cache with
      | [] => none
      | (k0, _) :: _ => some { c with cache := setAssoc key (value, expire) (eraseKey k0 c.cache) }
  else
    some { c with cache := setAssoc key (value, expire) c.cache }

/-- `TTLCache.delete`. -/
def TTLCache.delete {α β : Type} [DecidableEq α] (c : TTLCache α β) (key : α) :
    Bool × TTLCache α β :=
  if (findEntry key c.cache).isSome then
    (true, { c with cache := eraseKey key c.cache })
  else (false, c)

/-- `TTLCache.clear`. -/
def TTLCache.clear {α β : Type} (c : TTLCache α β) : TTLCache α β :=
  { c with cache := [] }

/-! ### `CacheManager` (`service/cache/base.py`) -/

/-- `CacheManager`: a named manager holding an optional backend and the two
hit/miss counters. The default backend installed by `get_instance` is an
`LRUCache`, which is the backend modelled here. -/
structure CacheManager (α β : Type) where
  name : String
  backend : Option (LRUCache α β)
  hit_count : Nat
  miss_count : Nat

/-- `CacheManager.get`: without a backend, return `None` and touch no counter;
otherwise query the backend and increment `hit_count` exactly when the backend
returned a value, `miss_count` otherwise. -/
def CacheManager.get {α β : Type} [DecidableEq α] (m : CacheManager α β) (key : α) (now : Nat) :
    Option β × CacheManager α β :=
  match m.backend with
  | none => (none, m)
  | some b =>
    match b.get key now with
    | (some v, b2) => (some v, { m with backend := some b2, hit_count := m.hit_count + 1 })
    | (none, b2) => (none, { m with backend := some b2, miss_count := m.miss_count + 1 })

/-- Round-half-to-even on rationals, the rounding mode of Python `round`. -/
def roundHalfToEven (x : ℚ) : ℤ :=
  let f := Int.floor x
  let r := x - f
  if r < 1 / 2 then f
  else if 1 / 2 < r then f + 1
  else if Even f then f else f + 1

/-- Python `round(x, ndigits)` on the exact rational value of `x`. -/
def pyRound (x : ℚ) (ndigits : Nat) : ℚ :=
  let p : ℚ := (10 : ℚ) ^ ndigits
  (roundHalfToEven (x * p) : ℚ) / p

/-- The statistics fields of `CacheManager.get_stats` that concern the
counters (the backend-specific fields are merged in afterwards and do not
touch these four). -/
structure CacheStats where
  hit_count : Nat
  miss_count : Nat
  total_requests : Nat
  hit_rate : ℚ

/-- `CacheManager.get_stats`: `total = hit + miss`, `hit_rate` is
`hit / total` (0 when `total = 0`) reported as a percentage rounded to two
decimal places. -/
def CacheManager.get_stats {α β : Type} (m : CacheManager α β) : CacheStats :=
  let total := m.hit_count + m.miss_count
  let hit_rate : ℚ := if 0 < total then (m.hit_count : ℚ) / (total : ℚ) else 0
  { hit_count := m.hit_count
    miss_count := m.miss_count
    total_requests := total
    hit_rate := pyRound (hit_rate * 100) 2 }

/-- Run a list of `CacheManager.get` calls in order, returning the final
manager together with how many of the calls returned a value (hits) and how
many returned `None` (misses). -/
def CacheManager.run_gets {α β : Type} [DecidableEq α] :
    CacheManager α β → List α → Nat → CacheManager α β × Nat × Nat
  | m, [], _ => (m, 0, 0)
  | m, k :: ks, now =>
    match m.get k now with
    | (some _, m2) =>
      let (mf, h, mi) := run_gets m2 ks now
      (mf, h + 1, mi)
    | (none, m2) =>
      let (mf, h, mi) := run_gets m2 ks now
      (mf, h, mi + 1)

/-! ### Context data model (`service/context/models.py`) -/

/-- `Conversation`: one question/SQL pair with a timestamp and metadata. -/
structure Conversation where
  query : String
  sql : String
  timestamp : Nat
  metadata : List (String × String)
deriving DecidableEq

/-- The dictionary produced by `Conversation.to_dict` (same four fields). -/
structure ConvDict where
  query : String
  sql : String
  timestamp : Nat
  metadata : List (String × String)
deriving DecidableEq

/-- `Conversation.to_dict`. -/
def Conversation.to_dict (c : Conversation) : ConvDict :=
  { query := c.query, sql := c.sql, timestamp := c.timestamp, metadata := c.metadata }

/-- `UserContext`: a user's conversation list in chronological order plus
bookkeeping timestamps. -/
structure UserContext where
  user_id : String
  tool_name : String
  conversations : List Conversation
  created_at : Nat
  last_access : Nat
deriving DecidableEq

/-- `UserContext.context_key` = `f"{user_id}:{tool_name}"`. -/
def UserContext.context_key (u : UserContext) : String :=
  u.user_id ++ ":" ++ u.tool_name

/-- `UserContext.add_conversation`: append and refresh `last_access`. -/
def UserContext.add_conversation (u : UserContext) (c : Conversation) (now : Nat) : UserContext :=
  { u with conversations := u.conversations ++ [c], last_access := now }

/-- `UserContext.get_recent_conversations`: the Python slice
`conversations[-min(window_size, len(conversations)):]`. When the computed
index is 0 the slice `[-0:]` is `[0:]`, i.e. the whole list. -/
def UserContext.get_recent_conversations (u : UserContext) (window_size : Nat) :
    List Conversation :=
  let m := min window_size u.conversations.length
  if m = 0 then u.conversations
  else u.conversations.drop (u.conversations.length - m)

/-- `UserContext.clear_conversations`. -/
def UserContext.clear_conversations (u : UserContext) (now : Nat) : UserContext :=
  { u with conversations := [], last_access := now }

/-! ### Context storage and manager
(`service/context/storage.py`, `service/context/context_manager.py`) -/

/-- A `ContextStorage` implementation over mutable state `σ`. Each operation
returns the state as mutated so far together with either its result or the
exception it raised, so a storage backend that raises can be modelled. -/
structure ContextStorageM (σ : Type) where
  get_context : String → σ → σ × Except String (Option UserContext)
  save_context : UserContext → σ → σ × Except String Bool
  cleanup_expired : Nat → σ → σ × Except String Nat

/-- `ContextManager` constants. -/
def DEFAULT_MEMORY_WINDOW : Nat := 3

/-- Default context expiry, 24 hours in seconds. -/
def DEFAULT_EXPIRY_TIME : Nat := 24 * 3600

/-- Cleanup interval, 1 hour in seconds. -/
def CLEANUP_INTERVAL : Nat := 3600

/-- `ContextManager`: the storage implementation plus the last-cleanup
instant. -/
structure ContextManager (σ : Type) where
  storage : ContextStorageM σ
  last_cleanup : Nat

/-- String of the first 8 characters, Python `s[:8]`. -/
def pyTake8 (s : String) : String := String.mk (s.data.take 8)

/-- `ContextManager._get_user_id`: pass a truthy user id through, otherwise
make an anonymous id from the fresh uuid4 hex string of this call. -/
def get_user_id (user_id : Option String) (fresh_hex : String) : String :=
  match user_id with
  | some u => if u = "" then "anon_" ++ pyTake8 fresh_hex else u
  | none => "anon_" ++ pyTake8 fresh_hex

/-- `ContextManager._auto_cleanup`: at most once per `CLEANUP_INTERVAL`,
sweep expired contexts; any storage exception is caught and logged here. -/
def ContextManager.auto_cleanup {σ : Type} (m : ContextManager σ) (now : Nat) (s : σ) :
    ContextManager σ × σ :=
  if m.last_cleanup + CLEANUP_INTERVAL < now then
    match m.storage.cleanup_expired DEFAULT_EXPIRY_TIME s with
    | (s2, _) => ({ m with last_cleanup := now }, s2)
  else (m, s)

/-- `ContextManager.get_context`: auto-cleanup, resolve the user id, look the
context up, and create/save a fresh one when absent. Storage exceptions
propagate out of this method (it has no try/except of its own). -/
def ContextManager.get_context {σ : Type} (m : ContextManager σ) (user_id : Option String)
    (tool_name : String) (fresh_hex : String) (now : Nat) (s : σ) :
    ContextManager σ × σ × Except String UserContext :=
  let (m2, s2) := m.auto_cleanup now s
  let uid := get_user_id user_id fresh_hex
  let key := uid ++ ":" ++ tool_name
  match m2.storage.get_context key s2 with
  | (s3, Except.error e) => (m2, s3, Except.error e)
  | (s3, Except.ok (some ctx)) => (m2, s3, Except.ok ctx)
  | (s3, Except.ok none) =>
    let ctx : UserContext :=
      { user_id := uid, tool_name := tool_name, conversations := []
        created_at := now, last_access := now }
    match m2.storage.save_context ctx s3 with
    | (s4, Except.error e) => (m2, s4, Except.error e)
    | (s4, Except.ok _) => (m2, s4, Except.ok ctx)

/-- `ContextManager.add_conversation`: the whole body runs inside
`try/except`, so a storage exception is logged and swallowed and the method
always returns `None` (`Except.ok ()`). -/
def ContextManager.add_conversation {σ : Type} (m : ContextManager σ) (query sql : String)
    (user_id : Option String) (tool_name : String) (metadata : List (String × String))
    (fresh_hex : String) (now : Nat) (s : σ) :
    ContextManager σ × σ × Except String Unit :=
  match m.get_context user_id tool_name fresh_hex now s with
  | (m2, s2, Except.error _) => (m2, s2, Except.ok ())
  | (m2, s2, Except.ok ctx) =>
    let conv : Conversation := { query := query, sql := sql, timestamp := now, metadata := metadata }
    let ctx2 := ctx.add_conversation conv now
    match m2.storage.save_context ctx2 s2 with
    | (s3, Except.error _) => (m2, s3, Except.ok ())
    | (s3, Except.ok _) => (m2, s3, Except.ok ())

/-- `ContextManager.get_conversation_history`: fetch the context, take the
last `window_size` conversations, return them as dictionaries; any exception
is caught and the empty list returned. -/
def ContextManager.get_conversation_history {σ : Type} (m : ContextManager σ)
    (user_id : Option String) (tool_name : String) (window_size : Nat)
    (fresh_hex : String) (now : Nat) (s : σ) :
    ContextManager σ × σ × List ConvDict :=
  match m.get_context user_id tool_name fresh_hex now s with
  | (m2, s2, Except.error _) => (m2, s2, [])
  | (m2, s2, Except.ok ctx) =>
    (m2, s2, (ctx.get_recent_conversations window_size).map Conversation.to_dict)

/-- `ContextManager.reset_memory`: resolve the user id, fetch the context,
clear it and save; the whole body runs inside `try/except`, so a storage
exception yields `False` instead of propagating. -/
def ContextManager.reset_memory {σ : Type} (m : ContextManager σ) (user_id : Option String)
    (tool_name : String) (fresh_hex : String) (now : Nat) (s : σ) :
    ContextManager σ × σ × Except String Bool :=
  match m.get_context (some (get_user_id user_id fresh_hex)) tool_name fresh_hex now s with
  | (m2, s2, Except.error _) => (m2, s2, Except.ok false)
  | (m2, s2, Except.ok ctx) =>
    let ctx2 := ctx.clear_conversations now
    match m2.storage.save_context ctx2 s2 with
    | (s3, Except.error _) => (m2, s3, Except.ok false)
    | (s3, Except.ok success) => (m2, s3, Except.ok success)

/-- `MemoryContextStorage` (`service/context/storage.py`): an in-memory dict
of contexts; `get_context` refreshes `last_access`, `save_context` stores
under `context_key` and returns `True`, `cleanup_expired` deletes every
context whose `last_access` is older than the cutoff. None of its operations
raise. -/
def memoryContextStorage (now : Nat) : ContextStorageM (List (String × UserContext)) where
  get_context := fun key s =>
    match findEntry key s with
    | none => (s, Except.ok none)
    | some ctx =>
      let ctx2 := { ctx with last_access := now }
      (setAssoc key ctx2 s, Except.ok (some ctx2))
  save_context := fun ctx s => (setAssoc ctx.context_key ctx s, Except.ok true)
  cleanup_expired := fun max_age s =>
    let cutoff := now - max_age
    let kept := s.filter (fun p => decide (cutoff ≤ p.2.last_access))
    (kept, Except.ok (s.length - kept.length))

/-! ### Order facts about `pairLe` (used for C4) -/

theorem charEq_of_toNat_eq {a b : Char} (h : a.toNat = b.toNat) : a = b := by
  have ha := Char.ofNat_toNat a
  rw [← ha, h, Char.ofNat_toNat]

theorem listLtB_trichotomy : ∀ x y : List Char, listLtB x y = true ∨ x = y ∨ listLtB y x = true
  | [], [] => Or.inr (Or.inl rfl)
  | [], _ :: _ => Or.inl rfl
  | _ :: _, [] => Or.inr (Or.inr rfl)
  | a :: as, b :: bs => by
    rcases Nat.lt_trichotomy a.toNat b.toNat with h | h | h
    · exact Or.inl (by simp [listLtB, h])
    · have hab : a = b := charEq_of_toNat_eq h
      subst hab
      rcases listLtB_trichotomy as bs with h2 | h2 | h2
      · exact Or.inl (by simp [listLtB, h2])
      · exact Or.inr (Or.inl (by rw [h2]))
      · exact Or.inr (Or.inr (by simp [listLtB, h2]))
    · exact Or.inr (Or.inr (by simp [listLtB, h, Nat.lt_asymm h]))

theorem listLtB_irrefl : ∀ x : List Char, listLtB x x = false
  | [] => rfl
  | a :: as => by simp [listLtB, listLtB_irrefl as]

theorem listLtB_asymm : ∀ x y : List Char, listLtB x y = true → listLtB y x = false
  | [], [] => by simp [listLtB]
  | [], _ :: _ => by intro _; simp [listLtB]
  | _ :: _, [] => by simp [listLtB]
  | a :: as, b :: bs => by
    intro h
    rcases Nat.lt_trichotomy a.toNat b.toNat with hab | hab | hab
    · simp [listLtB, show ¬ b.toNat < a.toNat by omega, hab]
    · have h2 : listLtB as bs = true := by
        simpa [listLtB, show ¬ a.toNat < b.toNat by omega,
          show ¬ b.toNat < a.toNat by omega] using h
      simp [listLtB, show ¬ b.toNat < a.toNat by omega,
        show ¬ a.toNat < b.toNat by omega, listLtB_asymm as bs h2]
    · simp [listLtB, show ¬ a.toNat < b.toNat by omega, hab] at h

theorem listLtB_trans : ∀ x y z : List Char,
    listLtB x y = true → listLtB y z = true → listLtB x z = true
  | [], [], [] => by simp [listLtB]
  | [], [], _ :: _ => fun _ _ => rfl
  | [], _ :: _, [] => by intro _ h; simp [listLtB] at h
  | [], _ :: _, _ :: _ => fun _ _ => rfl
  | _ :: _, [], _ => by intro h; simp [listLtB] at h
  | _ :: _, _ :: _, [] => by intro _ h; simp [listLtB] at h
  | a :: as, b :: bs, c :: cs => by
    intro h1 h2
    rcases Nat.lt_trichotomy a.toNat b.toNat with hab | hab | hab
    · rcases Nat.lt_trichotomy b.toNat c.toNat with hbc | hbc | hbc
      · simp [listLtB, show a.toNat < c.toNat by omega]
      · simp [listLtB, show a.toNat < c.toNat by omega]
      · simp [listLtB, show ¬ b.toNat < c.toNat by omega, hbc] at h2
    · rcases Nat.lt_trichotomy b.toNat c.toNat with hbc | hbc | hbc
      · simp [listLtB, show a.toNat < c.toNat by omega]
      · have h1r : listLtB as bs = true := by
          simpa [listLtB, show ¬ a.toNat < b.toNat by omega,
            show ¬ b.toNat < a.toNat by omega] using h1
        have h2r : listLtB bs cs = true := by
          simpa [listLtB, show ¬ b.toNat < c.toNat by omega,
            show ¬ c.toNat < b.toNat by omega] using h2
        simpa [listLtB, show ¬ a.toNat < c.toNat by omega,
          show ¬ c.toNat < a.toNat by omega] using listLtB_trans as bs cs h1r h2r
      · simp [listLtB, show ¬ b.toNat < c.toNat by omega, hbc] at h2
    · simp [listLtB, show ¬ a.toNat < b.toNat by omega, hab] at h1

theorem listLeB_iff : ∀ x y : List Char, listLeB x y = true ↔ (listLtB x y = true ∨ x = y)
  | [], [] => by simp [listLeB, listLtB]
  | [], _ :: _ => by simp [listLeB, listLtB]
  | _ :: _, [] => by simp [listLeB, listLtB]
  | a :: as, b :: bs => by
    rcases Nat.lt_trichotomy a.toNat b.toNat with hab | hab | hab
    · simp [listLeB, listLtB, hab]
    · have heq : a = b := charEq_of_toNat_eq hab
      subst heq
      have := listLeB_iff as bs
      simpa [listLeB, listLtB] using this
    · constructor
      · intro h
        simp [listLeB, show ¬ a.toNat < b.toNat by omega, hab] at h
      · rintro (h | h)
        · simp [listLtB, show ¬ a.toNat < b.toNat by omega, hab] at h
        · cases h
          exact absurd hab (lt_irrefl _)

instance : IsTotal (String × String) pairLe := by
  constructor
  intro a b
  rcases listLtB_trichotomy a.1.data b.1.data with h | h | h
  · exact Or.inl (Or.inl h)
  · have hs : a.1 = b.1 := String.ext h
    rcases listLtB_trichotomy a.2.data b.2.data with h2 | h2 | h2
    · exact Or.inl (Or.inr ⟨hs, (listLeB_iff _ _).mpr (Or.inl h2)⟩)
    · exact Or.inl (Or.inr ⟨hs, (listLeB_iff _ _).mpr (Or.inr h2)⟩)
    · exact Or.inr (Or.inr ⟨hs.symm, (listLeB_iff _ _).mpr (Or.inl h2)⟩)
  · exact Or.inr (Or.inl h)

instance : IsTrans (String × String) pairLe := by
  constructor
  intro a b c hab hbc
  rcases hab with h1 | ⟨h1, h1v⟩
  · rcases hbc with h2 | ⟨h2, _⟩
    · exact Or.inl (listLtB_trans _ _ _ h1 h2)
    · exact Or.inl (h2 ▸ h1)
  · rcases hbc with h2 | ⟨h2, h2v⟩
    · exact Or.inl (h1 ▸ h2)
    · refine Or.inr ⟨h1.trans h2, ?_⟩
      rcases (listLeB_iff _ _).mp h1v with hv | hv
      · rcases (listLeB_iff _ _).mp h2v with hw | hw
        · exact (listLeB_iff _ _).mpr (Or.inl (listLtB_trans _ _ _ hv hw))
        · exact (listLeB_iff _ _).mpr (Or.inl (hw ▸ hv))
      · exact (listLeB_iff _ _).mpr (hv ▸ (listLeB_iff _ _).mp h2v)

instance : IsAntisymm (String × String) pairLe := by
  constructor
  intro a b hab hba
  rcases hab with h1 | ⟨h1, h1v⟩
  · rcases hba with h2 | ⟨h2, _⟩
    · exact absurd h2 (by simp [listLtB_asymm _ _ h1])
    · have : a.1.data = b.1.data := congrArg String.data h2.symm
      rw [this, listLtB_irrefl] at h1
      exact absurd h1 (by simp)
  · rcases hba with h2 | ⟨h2, h2v⟩
    · have : b.1.data = a.1.data := congrArg String.data h1.symm
      rw [this, listLtB_irrefl] at h2
      exact absurd h2 (by simp)
    · refine Prod.ext h1 ?_
      rcases (listLeB_iff _ _).mp h1v with hv | hv
      · rcases (listLeB_iff _ _).mp h2v with hw | hw
        · rw [listLtB_asymm _ _ hv] at hw
          exact absurd hw (by simp)
        · exact String.ext hw.symm
      · exact String.ext hv

/-- Sorting is permutation-invariant: Python `sorted` returns the same list
for any two listings of the same multiset of pairs. -/
theorem pySorted_perm_eq {p1 p2 : List (String × String)} (h : p1.Perm p2) :
    pySorted p1 = pySorted p2 :=
  List.eq_of_perm_of_sorted
    ((List.perm_insertionSort pairLe p1).trans (h.trans (List.perm_insertionSort pairLe p2).symm))
    (List.sorted_insertionSort pairLe p1) (List.sorted_insertionSort pairLe p2)

/-- C4: cache-key derivation is order-independent and value-sensitive. For
every prefix and every pair of parameter lists holding the same key/value
pairs, `create_cache_key_from_dict` returns the identical `prefix:hash`
string; `generate_hash_key` likewise digests identically for kwargs given in
different insertion orders; and the two concrete mappings of the claim that
differ in one value produce different keys. -/
theorem c4_key_derivation_order_independent (pre : String)
    (p1 p2 : List (String × String)) (hp : p1.Perm p2)
    (args : List String) (kw1 kw2 : List (String × String)) (hk : kw1.Perm kw2) :
    create_cache_key_from_dict pre p1 = create_cache_key_from_dict pre p2 ∧
    generate_hash_key args kw1 = generate_hash_key args kw2 ∧
    create_cache_key_from_dict "sql" [("a", "1"), ("b", "2")] ≠
      create_cache_key_from_dict "sql" [("a", "1"), ("b", "3")] := by
  refine ⟨?_, ?_, ?_⟩
  · unfold create_cache_key_from_dict
    rw [pySorted_perm_eq hp]
  · unfold generate_hash_key
    rw [pySorted_perm_eq hk]
  · decide

/-- Witness for C4 at the claim's concrete inputs. -/
theorem c4_key_derivation_order_independent_witness :
    ([(("a" : String), ("1" : String)), ("b", "2")].Perm [("b", "2"), ("a", "1")]) ∧
    (create_cache_key_from_dict "sql" [("a", "1"), ("b", "2")] =
        create_cache_key_from_dict "sql" [("b", "2"), ("a", "1")] ∧
      generate_hash_key ["u"] [("a", "1"), ("b", "2")] =
        generate_hash_key ["u"] [("b", "2"), ("a", "1")] ∧
      create_cache_key_from_dict "sql" [("a", "1"), ("b", "2")] ≠
        create_cache_key_from_dict "sql" [("a", "1"), ("b", "3")]) :=
  ⟨by decide,
   c4_key_derivation_order_independent "sql" [("a", "1"), ("b", "2")] [("b", "2"), ("a", "1")]
     (by decide) ["u"] [("a", "1"), ("b", "2")] [("b", "2"), ("a", "1")] (by decide)⟩

/-! ### C1: the concrete LRU eviction scenario -/

/-- The claim's script on a fresh `max_size = 2` LRU cache: set(a,1), set(b,2),
get(a), set(c,3); record get(a) before the overflow, the final get(b), get(a),
get(c), and the key order right after the overflowing set. -/
def lru_scenario : Option (Option Nat × Option Nat × Option Nat × Option Nat × List String) :=
  let c0 : LRUCache String Nat := { max_size := 2, cache := [] }
  (c0.set "a" 1 none 0).bind fun s1 =>
  (s1.set "b" 2 none 0).bind fun s2 =>
  let (ra, s3) := s2.get "a" 0
  (s3.set "c" 3 none 0).map fun s4 =>
  let (rb, s5) := s4.get "b" 0
  let (ra2, s6) := s5.get "a" 0
  let (rc, _) := s6.get "c" 0
  (ra, rb, ra2, rc, s4.cache.map Prod.fst)

/-- C1: on a fresh LRUCache with max_size=2, after set(a,1), set(b,2), get(a),
set(c,3), the key b is evicted while a and c remain: get(b) is absent,
get(a) returns 1, get(c) returns 3, and the intermediate get(a) returned 1
(exempting a from eviction). -/
theorem c1_lru_eviction_order :
    lru_scenario = some (some 1, none, some 1, some 3, ["a", "c"]) := by decide

/-! ### C8: constructor validation -/

/-- C8 (amended): `LRUCache.__init__` fails fast on `max_size <= 0` by raising
`ValueError`, but `TTLCache.__init__` performs no validation and successfully
constructs a backend for any `max_size`. -/
theorem c8_lru_validates_ttl_does_not (ms dttl : Int) (h : ms ≤ 0) :
    lru_init Nat Nat ms = Except.error "max_size必须大于0" ∧
    ttl_init Nat Nat ms dttl =
      Except.ok { max_size := ms.toNat, default_ttl := dttl.toNat, cache := [] } := by
  constructor
  · unfold lru_init
    rw [if_pos h]
  · rfl

/-- Witness for C8 at `max_size = 0`. -/
theorem c8_lru_validates_ttl_does_not_witness :
    ((0 : Int) ≤ 0) ∧
    (lru_init Nat Nat 0 = Except.error "max_size必须大于0" ∧
      ttl_init Nat Nat 0 3600 =
        Except.ok { max_size := (0 : Int).toNat, default_ttl := (3600 : Int).toNat, cache := [] }) :=
  ⟨by decide, c8_lru_validates_ttl_does_not 0 3600 (by decide)⟩

/-- C8 counterexample: constructing the TTL variant with `max_size = 0`
succeeds (returns a backend instead of raising), refuting the claim that every
backend variant fails fast at construction for `max_size <= 0`. -/
theorem c8_ttl_accepts_nonpositive_max_size :
    (ttl_init Nat Nat 0 3600).isOk = true := by decide

/-! ### C5 counterexample: stopword removal can create new stopwords -/

/-- C5 counterexample: `normalize_query` with the default
`remove_stopwords=True` is not idempotent. On `"可可以以"` the single
`replace` pass for the stopword `"可以"` removes the middle occurrence and
glues a new `"可以"` together, which only a second application removes:
`normalize_query("可可以以") = "可以"` but
`normalize_query(normalize_query("可可以以")) = ""`. -/
theorem c5_normalize_query_not_idempotent :
    normalize_query (normalize_query "可可以以" true) true ≠ normalize_query "可可以以" true
      ∧ normalize_query "可可以以" true = "可以"
      ∧ normalize_query (normalize_query "可可以以" true) true = "" := by
  refine ⟨?_, by decide, by decide⟩
  decide

/-! ### Shape lemmas for `normalize_query` (C5) -/

/-- The one-pass core of `normalize_query`: collapse whitespace, lowercase,
strip (what `normalize_query` computes before optional stopword removal). -/
def norm0chars (l : List Char) : List Char :=
  pyStrip ((pyCollapse l).map pyToLower)

/-- Every whitespace character of the list is a plain space. -/
def allBlank (l : List Char) : Prop :=
  ∀ c ∈ l, pyIsSpace c = true → c = ' '

/-- No two adjacent whitespace characters. -/
def noAdjB : List Char → Bool
  | [] => true
  | [_] => true
  | a :: b :: rest => (!(pyIsSpace a && pyIsSpace b)) && noAdjB (b :: rest)

/-- The head, if any, is not whitespace. -/
def headNotSpace (l : List Char) : Prop :=
  ∀ c, l.head? = some c → pyIsSpace c = false

theorem pyIsSpace_false_of_ge (c : Char) (h : 33 ≤ c.toNat) : pyIsSpace c = false := by
  unfold pyIsSpace
  simp only [Bool.or_eq_false_iff, decide_eq_false_iff_not]
  omega

theorem charOfNat_toNat (n : Nat) (h : n < 55296) : (Char.ofNat n).toNat = n := by
  unfold Char.ofNat
  rw [dif_pos (Or.inl h)]
  rfl

theorem pyToLower_toNat (c : Char) (h : 65 ≤ c.toNat ∧ c.toNat ≤ 90) :
    (pyToLower c).toNat = c.toNat + 32 := by
  unfold pyToLower
  rw [if_pos h]
  exact charOfNat_toNat _ (by omega)

theorem pyToLower_idem (c : Char) : pyToLower (pyToLower c) = pyToLower c := by
  by_cases h : 65 ≤ c.toNat ∧ c.toNat ≤ 90
  · have hX : (pyToLower c).toNat = c.toNat + 32 := pyToLower_toNat c h
    show (if 65 ≤ (pyToLower c).toNat ∧ (pyToLower c).toNat ≤ 90 then
        Char.ofNat ((pyToLower c).toNat + 32) else pyToLower c) = pyToLower c
    rw [if_neg (by omega)]
  · have hc : pyToLower c = c := by unfold pyToLower; rw [if_neg h]
    rw [hc, hc]

theorem pyToLower_space (c : Char) : pyIsSpace (pyToLower c) = pyIsSpace c := by
  by_cases h : 65 ≤ c.toNat ∧ c.toNat ≤ 90
  · have hX := pyToLower_toNat c h
    rw [pyIsSpace_false_of_ge _ (by omega), pyIsSpace_false_of_ge c (by omega)]
  · have hc : pyToLower c = c := by unfold pyToLower; rw [if_neg h]
    rw [hc]

theorem noAdjB_cons_iff (a : Char) (l : List Char) :
    noAdjB (a :: l) = true ↔
      ((∀ b, l.head? = some b → (pyIsSpace a && pyIsSpace b) = false) ∧ noAdjB l = true) := by
  cases l with
  | nil => simp [noAdjB]
  | cons b rest =>
    simp only [noAdjB, Bool.and_eq_true, Bool.not_eq_eq_eq_not, Bool.not_true, List.head?_cons]
    constructor
    · rintro ⟨h1, h2⟩
      exact ⟨fun c hc => by cases hc; exact h1, h2⟩
    · rintro ⟨h1, h2⟩
      exact ⟨h1 b rfl, h2⟩

theorem noAdjB_append_split : ∀ l1 l2 : List Char,
    noAdjB (l1 ++ l2) = true → noAdjB l1 = true ∧ noAdjB l2 = true
  | [], l2 => fun h => ⟨rfl, h⟩
  | a :: l1, l2 => by
    intro h
    rw [List.cons_append, noAdjB_cons_iff] at h
    obtain ⟨hh, ht⟩ := h
    obtain ⟨h1, h2⟩ := noAdjB_append_split l1 l2 ht
    refine ⟨?_, h2⟩
    rw [noAdjB_cons_iff]
    refine ⟨?_, h1⟩
    intro b hb
    apply hh
    cases l1 with
    | nil => simp at hb
    | cons c l1' =>
      simp only [List.head?_cons] at hb
      rw [List.cons_append]
      simpa using hb

theorem dropWhile_headNotSpace (l : List Char) :
    headNotSpace (List.dropWhile pyIsSpace l) := by
  induction l with
  | nil => intro c hc; simp [List.dropWhile] at hc
  | cons a rest ih =>
    intro c hc
    rw [List.dropWhile_cons] at hc
    by_cases ha : pyIsSpace a = true
    · rw [if_pos ha] at hc
      exact ih c hc
    · rw [if_neg ha] at hc
      simp only [List.head?_cons, Option.some.injEq] at hc
      subst hc
      simp only [Bool.not_eq_true] at ha
      exact ha

theorem dropWhile_self_of_headNS (l : List Char) (h : headNotSpace l) :
    List.dropWhile pyIsSpace l = l := by
  cases l with
  | nil => rfl
  | cons a rest =>
    have ha := h a rfl
    rw [List.dropWhile_cons, if_neg (by simp [ha])]

theorem stripRight_append (l : List Char) :
    l = stripRight l ++ (List.takeWhile pyIsSpace l.reverse).reverse :=
  calc l = l.reverse.reverse := (List.reverse_reverse l).symm
    _ = (List.takeWhile pyIsSpace l.reverse ++ List.dropWhile pyIsSpace l.reverse).reverse := by
        rw [List.takeWhile_append_dropWhile]
    _ = (List.dropWhile pyIsSpace l.reverse).reverse
          ++ (List.takeWhile pyIsSpace l.reverse).reverse := by
        rw [List.reverse_append]
    _ = stripRight l ++ (List.takeWhile pyIsSpace l.reverse).reverse := rfl

theorem headNS_of_eq_append {r t : List Char} (h : headNotSpace (r ++ t)) :
    headNotSpace r := by
  intro c hc
  apply h c
  cases r with
  | nil => simp at hc
  | cons a rs =>
    simp only [List.head?_cons] at hc
    rw [List.cons_append]
    simpa using hc

theorem collapseAux_space_true (a : Char) (rest : List Char) (ha : pyIsSpace a = true) :
    collapseAux true (a :: rest) = collapseAux true rest := by
  simp [collapseAux, ha]

theorem collapseAux_space_false (a : Char) (rest : List Char) (ha : pyIsSpace a = true) :
    collapseAux false (a :: rest) = ' ' :: collapseAux true rest := by
  simp [collapseAux, ha]

theorem collapseAux_nonspace (b : Bool) (a : Char) (rest : List Char)
    (ha : pyIsSpace a = false) : collapseAux b (a :: rest) = a :: collapseAux false rest := by
  simp [collapseAux, ha]

theorem collapseAux_allBlank : ∀ (b : Bool) (l : List Char), allBlank (collapseAux b l)
  | _, [] => by intro c hc; simp [collapseAux] at hc
  | b, a :: rest => by
    intro c hc hs
    by_cases ha : pyIsSpace a = true
    · cases b with
      | true =>
        rw [collapseAux_space_true a rest ha] at hc
        exact collapseAux_allBlank true rest c hc hs
      | false =>
        rw [collapseAux_space_false a rest ha] at hc
        rcases List.mem_cons.mp hc with h | h
        · exact h
        · exact collapseAux_allBlank true rest c h hs
    · simp only [Bool.not_eq_true] at ha
      rw [collapseAux_nonspace b a rest ha] at hc
      rcases List.mem_cons.mp hc with h | h
      · subst h
        rw [hs] at ha
        exact absurd ha (by simp)
      · exact collapseAux_allBlank false rest c h hs

theorem collapseAux_headNS : ∀ l : List Char, headNotSpace (collapseAux true l)
  | [] => by intro c hc; simp [collapseAux] at hc
  | a :: rest => by
    intro c hc
    by_cases ha : pyIsSpace a = true
    · rw [collapseAux_space_true a rest ha] at hc
      exact collapseAux_headNS rest c hc
    · simp only [Bool.not_eq_true] at ha
      rw [collapseAux_nonspace true a rest ha] at hc
      simp only [List.head?_cons, Option.some.injEq] at hc
      subst hc
      exact ha

theorem collapseAux_noAdj : ∀ (b : Bool) (l : List Char), noAdjB (collapseAux b l) = true
  | _, [] => rfl
  | b, a :: rest => by
    by_cases ha : pyIsSpace a = true
    · cases b with
      | true =>
        rw [collapseAux_space_true a rest ha]
        exact collapseAux_noAdj true rest
      | false =>
        rw [collapseAux_space_false a rest ha, noAdjB_cons_iff]
        refine ⟨?_, collapseAux_noAdj true rest⟩
        intro d hd
        rw [collapseAux_headNS rest d hd]
        simp
    · simp only [Bool.not_eq_true] at ha
      rw [collapseAux_nonspace b a rest ha, noAdjB_cons_iff]
      refine ⟨?_, collapseAux_noAdj false rest⟩
      intro d _
      rw [ha]
      simp

theorem collapseAux_fix : ∀ (l : List Char) (b : Bool), allBlank l → noAdjB l = true →
    (b = true → headNotSpace l) → collapseAux b l = l
  | [], _ => fun _ _ _ => rfl
  | a :: rest, b => by
    intro hab hna hhd
    by_cases ha : pyIsSpace a = true
    · cases b with
      | true =>
        have := hhd rfl a rfl
        rw [ha] at this
        exact absurd this (by simp)
      | false =>
        have haa : a = ' ' := hab a (List.mem_cons_self a rest) ha
        have hrest_hd : headNotSpace rest := by
          intro c hc
          have h2 := ((noAdjB_cons_iff a rest).mp hna).1 c hc
          simpa [ha] using h2
        have htail : collapseAux true rest = rest :=
          collapseAux_fix rest true (fun c hc hs => hab c (List.mem_cons_of_mem a hc) hs)
            ((noAdjB_cons_iff a rest).mp hna).2 (fun _ => hrest_hd)
        rw [collapseAux_space_false a rest ha, htail, haa]
    · simp only [Bool.not_eq_true] at ha
      have htail : collapseAux false rest = rest :=
        collapseAux_fix rest false (fun c hc hs => hab c (List.mem_cons_of_mem a hc) hs)
          ((noAdjB_cons_iff a rest).mp hna).2 (fun h => nomatch h)
      rw [collapseAux_nonspace b a rest ha, htail]

theorem map_self_of_fixed : ∀ l : List Char, (∀ c ∈ l, pyToLower c = c) → l.map pyToLower = l
  | [] => fun _ => rfl
  | a :: rest => fun h => by
    rw [List.map_cons, h a (List.mem_cons_self a rest),
      map_self_of_fixed rest (fun c hc => h c (List.mem_cons_of_mem a hc))]

theorem noAdjB_map : ∀ l : List Char, noAdjB l = true → noAdjB (l.map pyToLower) = true
  | [] => fun _ => rfl
  | a :: rest => by
    intro h
    rw [List.map_cons, noAdjB_cons_iff]
    obtain ⟨hh, ht⟩ := (noAdjB_cons_iff a rest).mp h
    refine ⟨?_, noAdjB_map rest ht⟩
    intro b hb
    rw [List.head?_map] at hb
    rcases Option.map_eq_some'.mp hb with ⟨d, hd, hfd⟩
    rw [← hfd, pyToLower_space a, pyToLower_space d]
    exact hh d hd

theorem allBlank_map (l : List Char) (h : allBlank l) : allBlank (l.map pyToLower) := by
  intro c hc hs
  rcases List.mem_map.mp hc with ⟨d, hd, hfd⟩
  subst hfd
  rw [pyToLower_space] at hs
  rw [h d hd hs]
  decide

theorem pyStrip_subset (y : List Char) : ∀ c ∈ pyStrip y, c ∈ y := by
  intro c hc
  have h1 : c ∈ List.dropWhile pyIsSpace y := by
    have := stripRight_append (List.dropWhile pyIsSpace y)
    rw [this]
    exact List.mem_append_left _ hc
  have h2 : c ∈ List.takeWhile pyIsSpace y ++ List.dropWhile pyIsSpace y :=
    List.mem_append_right _ h1
  rwa [List.takeWhile_append_dropWhile] at h2

theorem pyStrip_props (y : List Char) (hB : allBlank y) (hN : noAdjB y = true) :
    allBlank (pyStrip y) ∧ noAdjB (pyStrip y) = true ∧ headNotSpace (pyStrip y) ∧
      headNotSpace (pyStrip y).reverse := by
  have hAB : allBlank (List.dropWhile pyIsSpace y) := by
    intro c hc hs
    refine hB c ?_ hs
    have h2 : c ∈ List.takeWhile pyIsSpace y ++ List.dropWhile pyIsSpace y :=
      List.mem_append_right _ hc
    rwa [List.takeWhile_append_dropWhile] at h2
  have hAN : noAdjB (List.dropWhile pyIsSpace y) = true := by
    have h2 : noAdjB (List.takeWhile pyIsSpace y ++ List.dropWhile pyIsSpace y) = true := by
      rw [List.takeWhile_append_dropWhile]
      exact hN
    exact (noAdjB_append_split _ _ h2).2
  have hAhd : headNotSpace (List.dropWhile pyIsSpace y) := dropWhile_headNotSpace y
  have hApp := stripRight_append (List.dropWhile pyIsSpace y)
  refine ⟨?_, ?_, ?_, ?_⟩
  · intro c hc hs
    exact hB c (pyStrip_subset y c hc) hs
  · rw [hApp] at hAN
    exact (noAdjB_append_split _ _ hAN).1
  · rw [hApp] at hAhd
    exact headNS_of_eq_append hAhd
  · show headNotSpace (stripRight (List.dropWhile pyIsSpace y)).reverse
    unfold stripRight
    rw [List.reverse_reverse]
    exact dropWhile_headNotSpace _

theorem pyStrip_self (r : List Char) (hhd : headNotSpace r) (htl : headNotSpace r.reverse) :
    pyStrip r = r := by
  unfold pyStrip
  rw [dropWhile_self_of_headNS r hhd]
  unfold stripRight
  rw [dropWhile_self_of_headNS r.reverse htl, List.reverse_reverse]

theorem norm0chars_idem (l : List Char) : norm0chars (norm0chars l) = norm0chars l := by
  have hyB : allBlank ((pyCollapse l).map pyToLower) :=
    allBlank_map _ (collapseAux_allBlank false l)
  have hyN : noAdjB ((pyCollapse l).map pyToLower) = true :=
    noAdjB_map _ (collapseAux_noAdj false l)
  obtain ⟨hrB, hrN, hrhd, hrtl⟩ := pyStrip_props _ hyB hyN
  have hrL : ∀ c ∈ norm0chars l, pyToLower c = c := by
    intro c hc
    have hcy : c ∈ (pyCollapse l).map pyToLower := pyStrip_subset _ c hc
    rcases List.mem_map.mp hcy with ⟨d, _, hfd⟩
    rw [← hfd, pyToLower_idem]
  show pyStrip ((pyCollapse (norm0chars l)).map pyToLower) = norm0chars l
  rw [show pyCollapse (norm0chars l) = norm0chars l from
      collapseAux_fix (norm0chars l) false hrB hrN (fun h => nomatch h),
    map_self_of_fixed _ hrL]
  exact pyStrip_self _ hrhd hrtl

/-- C5 (amended): `normalize_query` with `remove_stopwords=false` (whitespace
collapse, lowercase, trim) is idempotent for every input string; with the
default `remove_stopwords=true` idempotence fails because the blunt substring
removal can glue a new stopword occurrence together (see the
counterexample on input `"可可以以"`). -/
theorem c5_normalize_query_idempotent_without_stopwords (q : String) :
    normalize_query (normalize_query q false) false = normalize_query q false := by
  by_cases hq : q = ""
  · rw [hq]
    rfl
  · have h1 : normalize_query q false = String.mk (norm0chars q.data) := by
      unfold normalize_query
      rw [if_neg hq]
      rfl
    rw [h1]
    by_cases hr : String.mk (norm0chars q.data) = ""
    · rw [hr]
      rfl
    · unfold normalize_query
      rw [if_neg hr]
      show String.mk (norm0chars (norm0chars q.data)) = String.mk (norm0chars q.data)
      rw [norm0chars_idem]

/-! ### Length bookkeeping for the cache backends (C2) -/

theorem findEntry_cons {α γ : Type} [DecidableEq α] (key k : α) (v : γ) (rest : List (α × γ)) :
    findEntry key ((k, v) :: rest) = if k = key then some v else findEntry key rest := rfl

theorem eraseKey_length_of_found {α γ : Type} [DecidableEq α] (key : α) :
    ∀ l : List (α × γ), (findEntry key l).isSome = true → (eraseKey key l).length + 1 = l.length
  | [] => by simp [findEntry]
  | (k, v) :: rest => by
    intro h
    by_cases hk : k = key
    · unfold eraseKey
      rw [List.eraseP_cons_of_pos (by simp [hk])]
      simp
    · rw [findEntry_cons, if_neg hk] at h
      have ih := eraseKey_length_of_found key rest h
      unfold eraseKey at ih ⊢
      rw [List.eraseP_cons_of_neg (by simp [hk])]
      simp only [List.length_cons]
      omega

theorem eraseKey_length_le {α γ : Type} [DecidableEq α] (key : α) (l : List (α × γ)) :
    (eraseKey key l).length ≤ l.length :=
  (List.eraseP_sublist l).length_le

theorem setAssoc_length_present {α γ : Type} [DecidableEq α] (key : α) (v : γ) :
    ∀ l : List (α × γ), (findEntry key l).isSome = true → (setAssoc key v l).length = l.length
  | [] => by simp [findEntry]
  | (k, w) :: rest => by
    intro h
    unfold setAssoc
    by_cases hk : k = key
    · rw [if_pos hk]
      simp
    · rw [if_neg hk]
      rw [findEntry_cons, if_neg hk] at h
      simp only [List.length_cons, setAssoc_length_present key v rest h]

theorem setAssoc_length_absent {α γ : Type} [DecidableEq α] (key : α) (v : γ) :
    ∀ l : List (α × γ), (findEntry key l).isNone = true → (setAssoc key v l).length = l.length + 1
  | [] => by intro _; rfl
  | (k, w) :: rest => by
    intro h
    unfold setAssoc
    by_cases hk : k = key
    · rw [findEntry_cons, if_pos hk] at h
      simp at h
    · rw [if_neg hk]
      rw [findEntry_cons, if_neg hk] at h
      simp only [List.length_cons, setAssoc_length_absent key v rest h]

theorem findEntry_isSome_of_mem {α γ : Type} [DecidableEq α] (p : α × γ) :
    ∀ l : List (α × γ), p ∈ l → (findEntry p.1 l).isSome = true
  | [] => by simp
  | (k, v) :: rest => by
    intro h
    by_cases hk : k = p.1
    · rw [findEntry_cons, if_pos hk]
      rfl
    · rw [findEntry_cons, if_neg hk]
      rcases List.mem_cons.mp h with he | ht
      · exact absurd (congrArg Prod.fst he).symm hk
      · exact findEntry_isSome_of_mem p rest ht

theorem findEntry_isNone_iff {α γ : Type} [DecidableEq α] (key : α) :
    ∀ l : List (α × γ), (findEntry key l).isNone = true ↔ ∀ p ∈ l, p.1 ≠ key
  | [] => by simp [findEntry]
  | (k, v) :: rest => by
    by_cases hk : k = key
    · constructor
      · intro h
        rw [findEntry_cons, if_pos hk] at h
        simp at h
      · intro h
        exact absurd hk (h (k, v) (List.mem_cons_self _ _))
    · rw [findEntry_cons, if_neg hk, findEntry_isNone_iff key rest]
      constructor
      · intro h p hp
        rcases List.mem_cons.mp hp with he | ht
        · rw [he]
          exact hk
        · exact h p ht
      · intro h p hp
        exact h p (List.mem_cons_of_mem _ hp)

theorem isNone_of_not_isSome {γ : Type} {o : Option γ} (h : ¬ o.isSome = true) :
    o.isNone = true := by
  cases o with
  | none => rfl
  | some v => exact absurd rfl h

theorem not_isSome_of_isNone {γ : Type} {o : Option γ} (h : o.isNone = true) :
    ¬ o.isSome = true := by
  cases o with
  | none => simp
  | some v => simp at h

theorem lru_get_len {α β : Type} [DecidableEq α] (c : LRUCache α β) (key : α) (now : Nat) :
    ((c.get key now).2).cache.length ≤ c.cache.length ∧
      ((c.get key now).2).max_size = c.max_size := by
  unfold LRUCache.get
  split
  · exact ⟨le_refl _, rfl⟩
  · rename_i v t heq
    have hs : (findEntry key c.cache).isSome = true := by rw [heq]; rfl
    have hlen := eraseKey_length_of_found key c.cache hs
    split
    · exact ⟨eraseKey_length_le key c.cache, rfl⟩
    · refine ⟨?_, rfl⟩
      simp only [List.length_append, List.length_cons, List.length_nil]
      omega
  · rename_i v heq
    have hs : (findEntry key c.cache).isSome = true := by rw [heq]; rfl
    have hlen := eraseKey_length_of_found key c.cache hs
    refine ⟨?_, rfl⟩
    simp only [List.length_append, List.length_cons, List.length_nil]
    omega

theorem lru_set_spec {α β : Type} [DecidableEq α] (c : LRUCache α β) (key : α) (value : β)
    (ttl : Option Nat) (now : Nat) (h1 : 1 ≤ c.max_size) (h2 : c.cache.length ≤ c.max_size) :
    ∃ c2, c.set key value ttl now = some c2 ∧ c2.cache.length ≤ c.max_size ∧
      c2.max_size = c.max_size ∧
      ((findEntry key c.cache).isSome = true → c2.cache.length = c.cache.length) ∧
      ((findEntry key c.cache).isNone = true → c.cache.length = c.max_size →
        c2.cache.length = c.max_size) := by
  unfold LRUCache.set
  by_cases hk : (findEntry key c.cache).isSome = true
  · rw [if_pos hk]
    have hlen := eraseKey_length_of_found key c.cache hk
    refine ⟨_, rfl, ?_, rfl, fun _ => ?_, fun habs _ => absurd hk (not_isSome_of_isNone habs)⟩
    · simp only [List.length_append, List.length_cons, List.length_nil]
      omega
    · simp only [List.length_append, List.length_cons, List.length_nil]
      omega
  · rw [if_neg hk]
    by_cases hfull : c.max_size ≤ c.cache.length
    · rw [if_pos hfull]
      split
      · rename_i heq
        exfalso
        rw [heq] at hfull
        simp at hfull
        omega
      · rename_i k0 e0 rest heq
        have he : eraseKey k0 ((k0, e0) :: rest) = rest := by
          unfold eraseKey
          rw [List.eraseP_cons_of_pos (by simp)]
        have hlen : c.cache.length = rest.length + 1 := by rw [heq]; rfl
        rw [heq] at hk
        rw [heq, he]
        refine ⟨_, rfl, ?_, rfl, fun habs => absurd habs hk, fun _ hfull2 => ?_⟩
        · simp only [List.length_append, List.length_cons, List.length_nil]
          omega
        · simp only [List.length_cons] at hfull2
          simp only [List.length_append, List.length_cons, List.length_nil]
          omega
    · rw [if_neg hfull]
      refine ⟨_, rfl, ?_, rfl, fun habs => absurd habs hk, fun _ hfull2 => ?_⟩
      · simp only [List.length_append, List.length_cons, List.length_nil]
        omega
      · simp only [List.length_append, List.length_cons, List.length_nil]
        omega

theorem lru_delete_len {α β : Type} [DecidableEq α] (c : LRUCache α β) (key : α) :
    ((c.delete key).2).cache.length ≤ c.cache.length ∧
      ((c.delete key).2).max_size = c.max_size := by
  unfold LRUCache.delete
  by_cases hk : (findEntry key c.cache).isSome = true
  · rw [if_pos hk]
    exact ⟨eraseKey_length_le key c.cache, rfl⟩
  · rw [if_neg hk]
    exact ⟨le_refl _, rfl⟩

theorem ttl_get_len {α β : Type} [DecidableEq α] (t : TTLCache α β) (key : α) (now : Nat) :
    ((t.get key now).2).cache.length ≤ t.cache.length ∧
      ((t.get key now).2).max_size = t.max_size := by
  unfold TTLCache.get
  split
  · exact ⟨le_refl _, rfl⟩
  · split
    · exact ⟨eraseKey_length_le key t.cache, rfl⟩
    · exact ⟨le_refl _, rfl⟩

theorem ttl_delete_len {α β : Type} [DecidableEq α] (t : TTLCache α β) (key : α) :
    ((t.delete key).2).cache.length ≤ t.cache.length ∧
      ((t.delete key).2).max_size = t.max_size := by
  unfold TTLCache.delete
  by_cases hk : (findEntry key t.cache).isSome = true
  · rw [if_pos hk]
    exact ⟨eraseKey_length_le key t.cache, rfl⟩
  · rw [if_neg hk]
    exact ⟨le_refl _, rfl⟩

theorem ttl_set_spec {α β : Type} [DecidableEq α] (t : TTLCache α β) (key : α) (value : β)
    (ttl : Option Nat) (now : Nat) (h1 : 1 ≤ t.max_size) (h2 : t.cache.length ≤ t.max_size) :
    ∃ t2, t.set key value ttl now = some t2 ∧ t2.cache.length ≤ t.max_size ∧
      t2.max_size = t.max_size ∧
      ((findEntry key t.cache).isSome = true → t2.cache.length = t.cache.length) ∧
      ((findEntry key t.cache).isNone = true → t.cache.length = t.max_size →
        t2.cache.length = t.max_size) := by
  unfold TTLCache.set
  by_cases hcond : t.max_size ≤ t.cache.length ∧ (findEntry key t.cache).isNone = true
  · rw [if_pos hcond]
    have hlen_eq : t.cache.length = t.max_size := le_antisymm h2 hcond.1
    have habs := hcond.2
    have hnotsome := not_isSome_of_isNone habs
    split
    · rename_i p hfind
      have hp : p ∈ t.cache := List.mem_of_find?_eq_some hfind
      have hps : (findEntry p.1 t.cache).isSome = true := findEntry_isSome_of_mem p t.cache hp
      have herase := eraseKey_length_of_found p.1 t.cache hps
      have habs2 : (findEntry key (eraseKey p.1 t.cache)).isNone = true := by
        rw [findEntry_isNone_iff]
        intro q hq
        exact (findEntry_isNone_iff key t.cache).mp habs q ((List.eraseP_sublist t.cache).subset hq)
      refine ⟨_, rfl, ?_, rfl, fun hsome => absurd hsome hnotsome, fun _ _ => ?_⟩
      · rw [setAssoc_length_absent key _ _ habs2]
        omega
      · rw [setAssoc_length_absent key _ _ habs2]
        omega
    · split
      · rename_i heq
        exfalso
        rw [heq] at hlen_eq
        simp at hlen_eq
        omega
      · rename_i k0 e0 rest heq
        have he : eraseKey k0 ((k0, e0) :: rest) = rest := by
          unfold eraseKey
          rw [List.eraseP_cons_of_pos (by simp)]
        have habs2 : (findEntry key rest).isNone = true := by
          rw [findEntry_isNone_iff]
          intro q hq
          exact (findEntry_isNone_iff key t.cache).mp habs q
            (by rw [heq]; exact List.mem_cons_of_mem _ hq)
        have hlen : t.cache.length = rest.length + 1 := by rw [heq]; rfl
        rw [heq] at hnotsome
        rw [heq, he]
        refine ⟨_, rfl, ?_, rfl, fun hsome => absurd hsome hnotsome, fun _ _ => ?_⟩
        · rw [setAssoc_length_absent key _ _ habs2]
          omega
        · rw [setAssoc_length_absent key _ _ habs2]
          omega
  · rw [if_neg hcond]
    by_cases hk : (findEntry key t.cache).isSome = true
    · refine ⟨_, rfl, ?_, rfl, fun _ => ?_,
        fun habs _ => absurd hk (not_isSome_of_isNone habs)⟩
      · rw [setAssoc_length_present key _ _ hk]
        exact h2
      · rw [setAssoc_length_present key _ _ hk]
    · have hn := isNone_of_not_isSome hk
      have hlt : ¬ t.max_size ≤ t.cache.length := fun hle => hcond ⟨hle, hn⟩
      refine ⟨_, rfl, ?_, rfl, fun hsome => absurd hsome hk, fun _ hfull => ?_⟩
      · rw [setAssoc_length_absent key _ _ hn]
        omega
      · rw [setAssoc_length_absent key _ _ hn]
        omega

/-- C2: for both backends with `max_size >= 1`, every mutating operation
(`set`, `delete`, `clear`, and the lazily-expiring `get`) keeps the entry
count at or below `max_size`; a `set` of a new key on a full backend evicts
exactly one entry (the count stays at `max_size`); and a `set` of an
already-present key does not change the count. -/
theorem c2_capacity_invariant (α β : Type) [DecidableEq α]
    (c : LRUCache α β) (t : TTLCache α β)
    (hc1 : 1 ≤ c.max_size) (hc2 : c.cache.length ≤ c.max_size)
    (ht1 : 1 ≤ t.max_size) (ht2 : t.cache.length ≤ t.max_size)
    (kg ks kd : α) (vs : β) (ttls : Option Nat) (nowg nows : Nat)
    (ko : α) (vo : β) (ttlo : Option Nat) (nowo : Nat) (co : LRUCache α β)
    (hko : (findEntry ko c.cache).isSome = true)
    (hseto : c.set ko vo ttlo nowo = some co)
    (kn : α) (vn : β) (ttln : Option Nat) (nown : Nat) (cn : LRUCache α β)
    (hkn : (findEntry kn c.cache).isNone = true) (hcfull : c.cache.length = c.max_size)
    (hsetn : c.set kn vn ttln nown = some cn)
    (tkg tkd : α) (tks : α) (tvs : β) (tttls : Option Nat) (tnowg tnows : Nat)
    (tko : α) (tvo : β) (tttlo : Option Nat) (tnowo : Nat) (to2 : TTLCache α β)
    (htko : (findEntry tko t.cache).isSome = true)
    (htseto : t.set tko tvo tttlo tnowo = some to2)
    (tkn : α) (tvn : β) (tttln : Option Nat) (tnown : Nat) (tn2 : TTLCache α β)
    (htkn : (findEntry tkn t.cache).isNone = true) (htfull : t.cache.length = t.max_size)
    (htsetn : t.set tkn tvn tttln tnown = some tn2) :
    ((c.get kg nowg).2).cache.length ≤ c.max_size ∧
    (∃ c2, c.set ks vs ttls nows = some c2 ∧ c2.cache.length ≤ c.max_size) ∧
    ((c.delete kd).2).cache.length ≤ c.max_size ∧
    c.clear.cache.length ≤ c.max_size ∧
    co.cache.length = c.cache.length ∧
    cn.cache.length = c.max_size ∧
    ((t.get tkg tnowg).2).cache.length ≤ t.max_size ∧
    (∃ t2, t.set tks tvs tttls tnows = some t2 ∧ t2.cache.length ≤ t.max_size) ∧
    ((t.delete tkd).2).cache.length ≤ t.max_size ∧
    t.clear.cache.length ≤ t.max_size ∧
    to2.cache.length = t.cache.length ∧
    tn2.cache.length = t.max_size := by
  refine ⟨le_trans (lru_get_len c kg nowg).1 hc2, ?_, le_trans (lru_delete_len c kd).1 hc2,
    Nat.zero_le _, ?_, ?_, le_trans (ttl_get_len t tkg tnowg).1 ht2, ?_,
    le_trans (ttl_delete_len t tkd).1 ht2, Nat.zero_le _, ?_, ?_⟩
  · obtain ⟨c2, hs, hle, _, _, _⟩ := lru_set_spec c ks vs ttls nows hc1 hc2
    exact ⟨c2, hs, hle⟩
  · obtain ⟨c2, hs, _, _, hpres, _⟩ := lru_set_spec c ko vo ttlo nowo hc1 hc2
    rw [hseto] at hs
    rw [Option.some.injEq] at hs
    rw [hs]
    exact hpres hko
  · obtain ⟨c2, hs, _, _, _, hnew⟩ := lru_set_spec c kn vn ttln nown hc1 hc2
    rw [hsetn] at hs
    rw [Option.some.injEq] at hs
    rw [hs]
    exact hnew hkn hcfull
  · obtain ⟨t2, hs, hle, _, _, _⟩ := ttl_set_spec t tks tvs tttls tnows ht1 ht2
    exact ⟨t2, hs, hle⟩
  · obtain ⟨t2, hs, _, _, hpres, _⟩ := ttl_set_spec t tko tvo tttlo tnowo ht1 ht2
    rw [htseto] at hs
    rw [Option.some.injEq] at hs
    rw [hs]
    exact hpres htko
  · obtain ⟨t2, hs, _, _, _, hnew⟩ := ttl_set_spec t tkn tvn tttln tnown ht1 ht2
    rw [htsetn] at hs
    rw [Option.some.injEq] at hs
    rw [hs]
    exact hnew htkn htfull

/-- Concrete full LRU backend for the C2 witness. -/
def c2lru : LRUCache Nat Nat := { max_size := 2, cache := [(1, 10, none), (2, 20, none)] }

/-- Concrete full TTL backend for the C2 witness. -/
def c2ttl : TTLCache Nat Nat :=
  { max_size := 2, default_ttl := 3600, cache := [(1, 10, 100), (2, 20, 100)] }

/-- `c2lru` after overwriting present key 1. -/
def c2lruOver : LRUCache Nat Nat := { max_size := 2, cache := [(2, 20, none), (1, 99, none)] }

/-- `c2lru` after inserting new key 3 at capacity (key 1 evicted). -/
def c2lruNew : LRUCache Nat Nat := { max_size := 2, cache := [(2, 20, none), (3, 99, none)] }

/-- `c2ttl` after overwriting present key 1. -/
def c2ttlOver : TTLCache Nat Nat :=
  { max_size := 2, default_ttl := 3600, cache := [(1, 99, 3650), (2, 20, 100)] }

/-- `c2ttl` after inserting new key 3 at capacity (key 1 evicted). -/
def c2ttlNew : TTLCache Nat Nat :=
  { max_size := 2, default_ttl := 3600, cache := [(2, 20, 100), (3, 99, 3650)] }

/-- Witness for C2 on concrete two-entry backends at capacity. -/
theorem c2_capacity_invariant_witness :
    (1 ≤ c2lru.max_size) ∧ (c2lru.cache.length ≤ c2lru.max_size) ∧
    (1 ≤ c2ttl.max_size) ∧ (c2ttl.cache.length ≤ c2ttl.max_size) ∧
    ((findEntry 1 c2lru.cache).isSome = true) ∧
    (c2lru.set 1 99 none 0 = some c2lruOver) ∧
    ((findEntry 3 c2lru.cache).isNone = true) ∧ (c2lru.cache.length = c2lru.max_size) ∧
    (c2lru.set 3 99 none 0 = some c2lruNew) ∧
    ((findEntry 1 c2ttl.cache).isSome = true) ∧
    (c2ttl.set 1 99 none 50 = some c2ttlOver) ∧
    ((findEntry 3 c2ttl.cache).isNone = true) ∧ (c2ttl.cache.length = c2ttl.max_size) ∧
    (c2ttl.set 3 99 none 50 = some c2ttlNew) ∧
    (((c2lru.get 1 0).2).cache.length ≤ c2lru.max_size ∧
     (∃ c2, c2lru.set 5 50 none 0 = some c2 ∧ c2.cache.length ≤ c2lru.max_size) ∧
     ((c2lru.delete 1).2).cache.length ≤ c2lru.max_size ∧
     c2lru.clear.cache.length ≤ c2lru.max_size ∧
     c2lruOver.cache.length = c2lru.cache.length ∧
     c2lruNew.cache.length = c2lru.max_size ∧
     ((c2ttl.get 1 0).2).cache.length ≤ c2ttl.max_size ∧
     (∃ t2, c2ttl.set 5 50 none 50 = some t2 ∧ t2.cache.length ≤ c2ttl.max_size) ∧
     ((c2ttl.delete 1).2).cache.length ≤ c2ttl.max_size ∧
     c2ttl.clear.cache.length ≤ c2ttl.max_size ∧
     c2ttlOver.cache.length = c2ttl.cache.length ∧
     c2ttlNew.cache.length = c2ttl.max_size) :=
  ⟨by decide, by decide, by decide, by decide, by decide, by rfl, by decide, by decide, by rfl,
   by decide, by rfl, by decide, by decide, by rfl,
   c2_capacity_invariant Nat Nat c2lru c2ttl (by decide) (by decide) (by decide) (by decide)
     1 5 1 50 none 0 0
     1 99 none 0 c2lruOver (by decide) (by rfl)
     3 99 none 0 c2lruNew (by decide) (by decide) (by rfl)
     1 1 5 50 none 0 50
     1 99 none 50 c2ttlOver (by decide) (by rfl)
     3 99 none 50 c2ttlNew (by decide) (by decide) (by rfl)⟩

/-! ### Stats bookkeeping (C3) -/

theorem mgr_get_cases {α β : Type} [DecidableEq α] (m : CacheManager α β) (key : α) (now : Nat)
    (hb : m.backend.isSome = true) :
    ((m.get key now).2).backend.isSome = true ∧
    ((m.get key now).1.isSome = true →
      (m.get key now).2.hit_count = m.hit_count + 1 ∧
        (m.get key now).2.miss_count = m.miss_count) ∧
    ((m.get key now).1.isSome = false →
      (m.get key now).2.miss_count = m.miss_count + 1 ∧
        (m.get key now).2.hit_count = m.hit_count) := by
  unfold CacheManager.get
  split
  · rename_i hB
    rw [hB] at hb
    simp at hb
  · rename_i b hB
    split
    · exact ⟨rfl, fun _ => ⟨rfl, rfl⟩, fun h => by simp at h⟩
    · exact ⟨rfl, fun h => by simp at h, fun _ => ⟨rfl, rfl⟩⟩

theorem run_gets_spec {α β : Type} [DecidableEq α] :
    ∀ (ks : List α) (m : CacheManager α β) (now : Nat), m.backend.isSome = true →
      (m.run_gets ks now).2.1 + (m.run_gets ks now).2.2 = ks.length ∧
      (m.run_gets ks now).1.hit_count = m.hit_count + (m.run_gets ks now).2.1 ∧
      (m.run_gets ks now).1.miss_count = m.miss_count + (m.run_gets ks now).2.2
  | [], m, now => fun _ => ⟨rfl, by simp [CacheManager.run_gets], by simp [CacheManager.run_gets]⟩
  | k :: ks, m, now => by
    intro hb
    obtain ⟨hpb, hsome, hnone⟩ := mgr_get_cases m k now hb
    unfold CacheManager.run_gets
    split
    · rename_i v m2 hget
      have hb2 : m2.backend.isSome = true := by rw [hget] at hpb; exact hpb
      have hm2 : m2.hit_count = m.hit_count + 1 ∧ m2.miss_count = m.miss_count := by
        have := hsome (by rw [hget]; rfl)
        rwa [hget] at this
      obtain ⟨ih1, ih2, ih3⟩ := run_gets_spec ks m2 now hb2
      rcases hrun : CacheManager.run_gets m2 ks now with ⟨mf, h, mi⟩
      rw [hrun] at ih1 ih2 ih3
      simp only [hrun, List.length_cons]
      dsimp only at ih1 ih2 ih3 ⊢
      exact ⟨by omega, by omega, by omega⟩
    · rename_i m2 hget
      have hb2 : m2.backend.isSome = true := by rw [hget] at hpb; exact hpb
      have hm2 : m2.miss_count = m.miss_count + 1 ∧ m2.hit_count = m.hit_count := by
        have := hnone (by rw [hget]; rfl)
        rwa [hget] at this
      obtain ⟨ih1, ih2, ih3⟩ := run_gets_spec ks m2 now hb2
      rcases hrun : CacheManager.run_gets m2 ks now with ⟨mf, h, mi⟩
      rw [hrun] at ih1 ih2 ih3
      simp only [hrun, List.length_cons]
      dsimp only at ih1 ih2 ih3 ⊢
      exact ⟨by omega, by omega, by omega⟩

/-- C3: every `CacheManager.get` with a backend attached increments exactly one
of the two counters (`hit_count` when the backend returned a value); after a
list of gets on a manager starting from zeroed counters, of which H hit and M
missed, `get_stats` reports `hit_count = H`, `miss_count = M`,
`total_requests = H + M = N`, and `hit_rate = round(H/N*100, 2)` (0 when
`N = 0`). -/
theorem c3_stats_correctness (α β : Type) [DecidableEq α] (m : CacheManager α β)
    (key : α) (ks : List α) (now : Nat)
    (hb : m.backend.isSome = true) (h0 : m.hit_count = 0) (hm0 : m.miss_count = 0) :
    ((m.get key now).1.isSome = true →
        (m.get key now).2.hit_count = m.hit_count + 1 ∧
          (m.get key now).2.miss_count = m.miss_count) ∧
    ((m.get key now).1.isSome = false →
        (m.get key now).2.miss_count = m.miss_count + 1 ∧
          (m.get key now).2.hit_count = m.hit_count) ∧
    (m.run_gets ks now).2.1 + (m.run_gets ks now).2.2 = ks.length ∧
    (m.run_gets ks now).1.hit_count = (m.run_gets ks now).2.1 ∧
    (m.run_gets ks now).1.miss_count = (m.run_gets ks now).2.2 ∧
    ((m.run_gets ks now).1.get_stats).hit_count = (m.run_gets ks now).2.1 ∧
    ((m.run_gets ks now).1.get_stats).miss_count = (m.run_gets ks now).2.2 ∧
    ((m.run_gets ks now).1.get_stats).total_requests = ks.length ∧
    ((m.run_gets ks now).1.get_stats).hit_rate =
      (if 0 < ks.length then
        pyRound (((m.run_gets ks now).2.1 : ℚ) / (ks.length : ℚ) * 100) 2
       else 0) := by
  obtain ⟨hc, hsome, hnone⟩ := mgr_get_cases m key now hb
  obtain ⟨h1, h2, h3⟩ := run_gets_spec ks m now hb
  rw [h0, Nat.zero_add] at h2
  rw [hm0, Nat.zero_add] at h3
  refine ⟨hsome, hnone, h1, h2, h3, ?_, ?_, ?_, ?_⟩
  · simp only [CacheManager.get_stats]
    exact h2
  · simp only [CacheManager.get_stats]
    exact h3
  · simp only [CacheManager.get_stats]
    omega
  · simp only [CacheManager.get_stats]
    rw [h2, h3, h1]
    by_cases hN : 0 < ks.length
    · rw [if_pos hN, if_pos hN]
    · rw [if_neg hN, if_neg hN]
      norm_num [pyRound, roundHalfToEven]

/-- Concrete manager for the C3 witness: one cached key, two lookups of which
the first hits and the second misses. -/
def c3mgr : CacheManager String Nat :=
  { name := "default", backend := some { max_size := 10, cache := [("k", 7, none)] }
    hit_count := 0, miss_count := 0 }

/-- Witness for C3: on `c3mgr`, gets of "k" and "x" give one hit and one miss
and a 50% hit rate. -/
theorem c3_stats_correctness_witness :
    (c3mgr.backend.isSome = true) ∧ (c3mgr.hit_count = 0) ∧ (c3mgr.miss_count = 0) ∧
    (((c3mgr.get "k" 0).1.isSome = true →
        (c3mgr.get "k" 0).2.hit_count = c3mgr.hit_count + 1 ∧
          (c3mgr.get "k" 0).2.miss_count = c3mgr.miss_count) ∧
     ((c3mgr.get "k" 0).1.isSome = false →
        (c3mgr.get "k" 0).2.miss_count = c3mgr.miss_count + 1 ∧
          (c3mgr.get "k" 0).2.hit_count = c3mgr.hit_count) ∧
     (c3mgr.run_gets ["k", "x"] 0).2.1 + (c3mgr.run_gets ["k", "x"] 0).2.2 = (["k", "x"]).length ∧
     (c3mgr.run_gets ["k", "x"] 0).1.hit_count = (c3mgr.run_gets ["k", "x"] 0).2.1 ∧
     (c3mgr.run_gets ["k", "x"] 0).1.miss_count = (c3mgr.run_gets ["k", "x"] 0).2.2 ∧
     ((c3mgr.run_gets ["k", "x"] 0).1.get_stats).hit_count = (c3mgr.run_gets ["k", "x"] 0).2.1 ∧
     ((c3mgr.run_gets ["k", "x"] 0).1.get_stats).miss_count = (c3mgr.run_gets ["k", "x"] 0).2.2 ∧
     ((c3mgr.run_gets ["k", "x"] 0).1.get_stats).total_requests = (["k", "x"]).length ∧
     ((c3mgr.run_gets ["k", "x"] 0).1.get_stats).hit_rate =
       (if 0 < (["k", "x"]).length then
         pyRound (((c3mgr.run_gets ["k", "x"] 0).2.1 : ℚ) / ((["k", "x"]).length : ℚ) * 100) 2
        else 0)) :=
  ⟨by decide, rfl, rfl,
   c3_stats_correctness String Nat c3mgr "k" ["k", "x"] 0 (by decide) rfl rfl⟩

/-! ### Windowed conversation history (C6) -/

/-- A single conversation used by the C6 counterexample. -/
def c6one : UserContext :=
  { user_id := "u", tool_name := "text2sql"
    conversations := [{ query := "q", sql := "s", timestamp := 1, metadata := [] }]
    created_at := 0, last_access := 0 }

/-- C6 counterexample: for `window_size = 0` the Python slice
`conversations[-min(0, k):]` is `conversations[0:]`, the **whole** list, not
the last `min(0, k) = 0` conversations: with one stored conversation the
result has length 1, not 0. -/
theorem c6_window_zero_returns_all :
    c6one.get_recent_conversations 0 = c6one.conversations ∧
    (c6one.get_recent_conversations 0).length ≠ min 0 c6one.conversations.length := by
  constructor
  · decide
  · decide

/-- C6 (amended): for every positive window size `w >= 1`, the returned window
is the last `min(w, k)` conversations in chronological order (never padded,
never an error), and `get_conversation_history` returns exactly those
conversations as dictionaries; for `w = 0` the code returns the whole list
instead. -/
theorem c6_windowed_history (σ : Type) (m : ContextManager σ) (uid : Option String)
    (tool fh : String) (now : Nat) (s : σ) (m2 : ContextManager σ) (s2 : σ)
    (u : UserContext) (w : Nat) (hw : 1 ≤ w)
    (hget : m.get_context uid tool fh now s = (m2, s2, Except.ok u)) :
    (u.get_recent_conversations w).length = min w u.conversations.length ∧
    u.get_recent_conversations w =
      u.conversations.drop (u.conversations.length - min w u.conversations.length) ∧
    m.get_conversation_history uid tool w fh now s =
      (m2, s2, (u.get_recent_conversations w).map Conversation.to_dict) := by
  refine ⟨?_, ?_, ?_⟩
  · unfold UserContext.get_recent_conversations
    by_cases hm : min w u.conversations.length = 0
    · rw [if_pos hm]
      have hlen : u.conversations.length = 0 := by
        rcases Nat.min_eq_zero_iff.mp hm with h | h
        · omega
        · exact h
      have hnil := List.length_eq_zero.mp hlen
      rw [hnil]
      simp
    · rw [if_neg hm]
      rw [List.length_drop]
      have := Nat.min_le_right w u.conversations.length
      omega
  · unfold UserContext.get_recent_conversations
    by_cases hm : min w u.conversations.length = 0
    · rw [if_pos hm]
      have hlen : u.conversations.length = 0 := by
        rcases Nat.min_eq_zero_iff.mp hm with h | h
        · omega
        · exact h
      have hnil := List.length_eq_zero.mp hlen
      rw [hnil]
      simp
    · rw [if_neg hm]
  · unfold ContextManager.get_conversation_history
    rw [hget]

/-- A five-conversation context for the C6 witness. -/
def c6ctx : UserContext :=
  { user_id := "u", tool_name := "text2sql"
    conversations :=
      [{ query := "q1", sql := "s1", timestamp := 1, metadata := [] },
       { query := "q2", sql := "s2", timestamp := 2, metadata := [] },
       { query := "q3", sql := "s3", timestamp := 3, metadata := [] },
       { query := "q4", sql := "s4", timestamp := 4, metadata := [] },
       { query := "q5", sql := "s5", timestamp := 5, metadata := [] }]
    created_at := 0, last_access := 0 }

/-- Manager over the in-memory storage for the C6 witness. -/
def c6mgr : ContextManager (List (String × UserContext)) :=
  { storage := memoryContextStorage 0, last_cleanup := 0 }

/-- Storage state holding `c6ctx` for the C6 witness. -/
def c6state : List (String × UserContext) := [("u:text2sql", c6ctx)]

/-- Witness for C6 with five stored conversations and `window_size = 2`. -/
theorem c6_windowed_history_witness :
    (1 ≤ 2) ∧
    (c6mgr.get_context (some "u") "text2sql" "ffffffff" 0 c6state =
      (c6mgr, c6state, Except.ok c6ctx)) ∧
    ((c6ctx.get_recent_conversations 2).length = min 2 c6ctx.conversations.length ∧
     c6ctx.get_recent_conversations 2 =
       c6ctx.conversations.drop (c6ctx.conversations.length - min 2 c6ctx.conversations.length) ∧
     c6mgr.get_conversation_history (some "u") "text2sql" 2 "ffffffff" 0 c6state =
       (c6mgr, c6state, (c6ctx.get_recent_conversations 2).map Conversation.to_dict)) :=
  ⟨by decide, by rfl,
   c6_windowed_history _ c6mgr (some "u") "text2sql" "ffffffff" 0 c6state c6mgr c6state c6ctx 2
     (by decide) (by rfl)⟩

/-! ### Storage error handling at the ContextManager boundary (C9) -/

/-- C9: `add_conversation` never propagates a storage exception (it always
returns `None`, modelled `Except.ok ()`), and `reset_memory` never propagates
either: if the context fetch raises, or the final save raises, it returns
`False`. -/
theorem c9_storage_errors_swallowed (σ : Type) (m : ContextManager σ) (q sq : String)
    (uid : Option String) (tool : String) (md : List (String × String)) (fh : String)
    (now : Nat) (s : σ) :
    (m.add_conversation q sq uid tool md fh now s).2.2 = Except.ok () ∧
    (∀ e, (m.reset_memory uid tool fh now s).2.2 ≠ Except.error e) ∧
    (∀ e m2 s2,
      m.get_context (some (get_user_id uid fh)) tool fh now s = (m2, s2, Except.error e) →
      (m.reset_memory uid tool fh now s).2.2 = Except.ok false) ∧
    (∀ m2 s2 ctx e,
      m.get_context (some (get_user_id uid fh)) tool fh now s = (m2, s2, Except.ok ctx) →
      (m2.storage.save_context (ctx.clear_conversations now) s2).2 = Except.error e →
      (m.reset_memory uid tool fh now s).2.2 = Except.ok false) := by
  refine ⟨?_, ?_, ?_, ?_⟩
  · unfold ContextManager.add_conversation
    split
    · rfl
    · dsimp only
      split
      · rfl
      · rfl
  · intro e
    unfold ContextManager.reset_memory
    split
    · simp
    · dsimp only
      split
      · simp
      · simp
  · intro e m2 s2 hget
    unfold ContextManager.reset_memory
    rw [hget]
  · intro m2 s2 ctx e hget hsave
    unfold ContextManager.reset_memory
    rw [hget]
    dsimp only
    rcases hsv : m2.storage.save_context (ctx.clear_conversations now) s2 with ⟨s3, r⟩
    rw [hsv] at hsave
    dsimp only at hsave
    subst hsave
    rfl

/-- A storage backend whose every operation raises, for the C9 witness. -/
def failStorage : ContextStorageM Unit :=
  { get_context := fun _ s => (s, Except.error "boom")
    save_context := fun _ s => (s, Except.error "boom")
    cleanup_expired := fun _ s => (s, Except.error "boom") }

/-- Manager over the always-raising storage for the C9 witness. -/
def c9mgr : ContextManager Unit := { storage := failStorage, last_cleanup := 0 }

/-- Witness for C9 on the always-raising storage: `add_conversation` still
returns `None` and `reset_memory` returns `False`. -/
theorem c9_storage_errors_swallowed_witness :
    ((c9mgr.add_conversation "q" "s" (some "alice") "text2sql" [] "ff" 0 ()).2.2 =
      Except.ok ()) ∧
    ((c9mgr.reset_memory (some "alice") "text2sql" "ff" 0 ()).2.2 = Except.ok false) :=
  ⟨(c9_storage_errors_swallowed Unit c9mgr "q" "s" (some "alice") "text2sql" [] "ff" 0 ()).1,
   (c9_storage_errors_swallowed Unit c9mgr "q" "s" (some "alice") "text2sql" [] "ff"
      0 ()).2.2.1 "boom" c9mgr () (by rfl)⟩

/-! ### Anonymous callers get no conversational continuity (C10) -/

set_option maxRecDepth 8000 in
/-- C10: each entry point that is given no `user_id` mints an id
`"anon_" + uuid4().hex[:8]` for that call alone; two calls whose minted ids
differ address distinct context keys, so an `add_conversation` with omitted
`user_id` followed by a `get_conversation_history` with omitted `user_id`
returns the empty history. -/
theorem c10_anonymous_ids_no_continuity (h1 h2 fh q sq : String) (now w : Nat)
    (hne : get_user_id none h1 ≠ get_user_id none h2) :
    get_user_id none fh = "anon_" ++ pyTake8 fh ∧
    (let m : ContextManager (List (String × UserContext)) :=
        { storage := memoryContextStorage now, last_cleanup := now }
     let r1 := m.add_conversation q sq none "text2sql" [] h1 now []
     let r2 := r1.1.get_conversation_history none "text2sql" w h2 now r1.2.1
     r2.2.2 = ([] : List ConvDict)) := by
  refine ⟨rfl, ?_⟩
  have hc0 : ¬ (now + CLEANUP_INTERVAL < now) := by
    unfold CLEANUP_INTERVAL
    omega
  have hkeyP : ¬ ("anon_" ++ pyTake8 h1 ++ ":" ++ "text2sql" =
      "anon_" ++ pyTake8 h2 ++ ":" ++ "text2sql") := by
    intro heq
    apply hne
    have hd := congrArg String.data heq
    simp only [String.data_append] at hd
    have h3 := List.append_cancel_right hd
    have h4 := List.append_cancel_right h3
    apply String.ext
    simp only [get_user_id, String.data_append]
    exact h4
  have hg1 : ({ storage := memoryContextStorage now, last_cleanup := now } :
        ContextManager (List (String × UserContext))).get_context none "text2sql" h1 now [] =
      ({ storage := memoryContextStorage now, last_cleanup := now },
        [("anon_" ++ pyTake8 h1 ++ ":" ++ "text2sql",
          ⟨"anon_" ++ pyTake8 h1, "text2sql", [], now, now⟩)],
        Except.ok ⟨"anon_" ++ pyTake8 h1, "text2sql", [], now, now⟩) := by
    simp only [ContextManager.get_context, ContextManager.auto_cleanup, hc0, ite_false,
      get_user_id, memoryContextStorage, findEntry, setAssoc, UserContext.context_key]
  have hadd : ({ storage := memoryContextStorage now, last_cleanup := now } :
        ContextManager (List (String × UserContext))).add_conversation
          q sq none "text2sql" [] h1 now [] =
      ({ storage := memoryContextStorage now, last_cleanup := now },
        [("anon_" ++ pyTake8 h1 ++ ":" ++ "text2sql",
          ⟨"anon_" ++ pyTake8 h1, "text2sql", [⟨q, sq, now, []⟩], now, now⟩)],
        Except.ok ()) := by
    unfold ContextManager.add_conversation
    rw [hg1]
    simp only [memoryContextStorage, UserContext.add_conversation, UserContext.context_key,
      List.nil_append, setAssoc, eq_self_iff_true, ite_true]
  have hg2 : ({ storage := memoryContextStorage now, last_cleanup := now } :
        ContextManager (List (String × UserContext))).get_context none "text2sql" h2 now
        [("anon_" ++ pyTake8 h1 ++ ":" ++ "text2sql",
          ⟨"anon_" ++ pyTake8 h1, "text2sql", [⟨q, sq, now, []⟩], now, now⟩)] =
      ({ storage := memoryContextStorage now, last_cleanup := now },
        [("anon_" ++ pyTake8 h1 ++ ":" ++ "text2sql",
          ⟨"anon_" ++ pyTake8 h1, "text2sql", [⟨q, sq, now, []⟩], now, now⟩),
         ("anon_" ++ pyTake8 h2 ++ ":" ++ "text2sql",
          ⟨"anon_" ++ pyTake8 h2, "text2sql", [], now, now⟩)],
        Except.ok ⟨"anon_" ++ pyTake8 h2, "text2sql", [], now, now⟩) := by
    simp only [ContextManager.get_context, ContextManager.auto_cleanup, hc0, ite_false,
      get_user_id, memoryContextStorage, findEntry, setAssoc, hkeyP, UserContext.context_key]
  dsimp only
  rw [hadd]
  dsimp only
  simp only [ContextManager.get_conversation_history, hg2,
    UserContext.get_recent_conversations, List.length_nil, Nat.min_zero,
    eq_self_iff_true, ite_true, List.map_nil]

/-- Witness for C10 with two distinct minted hex strings. -/
theorem c10_anonymous_ids_no_continuity_witness :
    (get_user_id none "aaaaaaaa" ≠ get_user_id none "bbbbbbbb") ∧
    (get_user_id none "cccccccc" = "anon_" ++ pyTake8 "cccccccc" ∧
     (let m : ContextManager (List (String × UserContext)) :=
         { storage := memoryContextStorage 0, last_cleanup := 0 }
      let r1 := m.add_conversation "q" "s" none "text2sql" [] "aaaaaaaa" 0 []
      let r2 := r1.1.get_conversation_history none "text2sql" 3 "bbbbbbbb" 0 r1.2.1
      r2.2.2 = ([] : List ConvDict))) :=
  ⟨by decide,
   c10_anonymous_ids_no_continuity "aaaaaaaa" "bbbbbbbb" "cccccccc" "q" "s" 0 3 (by decide)⟩
